import Mathlib

/-!
# Verification of the kvrocks stream-base module

A shallow embedding of `src/types/redis_stream_base.cc` (stream entry
identifiers, their parsers, and the length-prefixed value codec) and of the
low-level output loops of `src/common/io_util.cc`, together with theorems
checking the natural-language specification against that code.

Machine integers (`uint64_t`, `uint32_t`) are modelled as `Nat`; wrap-around
is written explicitly as `% 2 ^ 64` / `% 2 ^ 32` exactly where the C++ code
can overflow or truncate.  Byte strings are `List Nat` (one `Nat` per byte),
client-supplied identifier text is `List Char`.  Functions that mutate an
out-parameter are modelled as taking the object's prior value and returning
the new value together with the returned status.
-/

namespace Redis

/-- `UINT64_MAX`. -/
def UINT64MAX : Nat := 2 ^ 64 - 1

/-- Error text `kErrLastEntryIdReached` from the source. -/
def kErrLastEntryIdReached : String := "last possible entry id reached"

/-- Error text `kErrInvalidEntryIdSpecified` from the source. -/
def kErrInvalidEntryIdSpecified : String := "Invalid stream ID specified as stream command argument"

/-- Error text `kErrDecodingStreamEntryValueFailure` from the source. -/
def kErrDecodingStreamEntryValueFailure : String := "failed to decode stream entry value"

/-- Status values returned by the stream-base functions: `rocksdb::Status::OK`
or `rocksdb::Status::InvalidArgument(msg)` for the increment path, and
`Status::OK` or `Status(Status::RedisParseErr, msg)` for the parsers and the
codec. -/
inductive RStatus where
  | ok
  | invalidArgument (msg : String)
  | redisParseErr (msg : String)
deriving DecidableEq

/-- `StreamEntryID { uint64_t ms; uint64_t seq; }`. -/
structure StreamEntryID where
  ms : Nat
  seq : Nat
deriving DecidableEq

/-- `NewStreamEntryID { uint64_t ms; uint64_t seq; bool any_seq_number; }`. -/
structure NewStreamEntryID where
  ms : Nat
  seq : Nat
  any_seq_number : Bool
deriving DecidableEq

/-- Modelled from the spec: a fresh `NewStreamEntryID` request object.  The
header declaring the member initializers is not under `src/`; the spec's
parsing table (§4.3) fixes the observable defaults — the no-separator and
`ms-seq` forms yield `any_seq_number = false` and the no-separator form
yields `seq = 0` — so a fresh object is `ms = 0, seq = 0,
any_seq_number = false`. -/
def NewStreamEntryID.fresh : NewStreamEntryID := ⟨0, 0, false⟩

/-- The maximum representable entry id `(UINT64_MAX, UINT64_MAX)`. -/
def maxEntryID : StreamEntryID := ⟨UINT64MAX, UINT64MAX⟩

/-- Strict lexicographic order on `(ms, seq)`, `ms` most significant. -/
def entryIDLt (a b : StreamEntryID) : Prop :=
  a.ms < b.ms ∨ (a.ms = b.ms ∧ a.seq < b.seq)

instance (a b : StreamEntryID) : Decidable (entryIDLt a b) := by
  unfold entryIDLt; infer_instance

/-- `IncrementStreamEntryID` from `redis_stream_base.cc`: mutates `*id` and
returns a `rocksdb::Status`.  Modelled as prior value in, new value and
status out.  The in-range increments `seq + 1` / `ms + 1` are guarded by
`≠ UINT64_MAX` tests in the source, so they cannot wrap and no explicit
`% 2 ^ 64` is needed. -/
def IncrementStreamEntryID (id : StreamEntryID) : StreamEntryID × RStatus :=
  if id.seq = UINT64MAX then
    if id.ms = UINT64MAX then
      -- special case where 'id' is the last possible entry ID
      (⟨0, 0⟩, .invalidArgument kErrLastEntryIdReached)
    else
      (⟨id.ms + 1, 0⟩, .ok)
  else
    (⟨id.ms, id.seq + 1⟩, .ok)

/-- `GetNextStreamEntryID` from `redis_stream_base.cc`.  The source reads the
current wall clock via `Util::GetTimeStampMS()`; that nondeterministic input
is modelled as the explicit parameter `nowMs`. -/
def GetNextStreamEntryID (last : StreamEntryID) (nowMs : Nat) : StreamEntryID × RStatus :=
  if nowMs > last.ms then
    (⟨nowMs, 0⟩, .ok)
  else
    IncrementStreamEntryID last

/-- Base-10 value of a digit string, most significant digit first. -/
def digitsVal (s : List Char) : Nat :=
  s.foldl (fun acc c => acc * 10 + (c.toNat - 48)) 0

/-- Modelled from the spec: `ParseInt<uint64_t>(s, 10)` from `parse_util.h`
(not under `src/`).  Per §4.3 the components must be "base-10, unsigned,
unsigned-64-bit representable integers with no sign and no extraneous
characters": the string must be a non-empty run of decimal digits whose
value fits in 64 bits. -/
def parseUInt64 (s : List Char) : Option Nat :=
  if s ≠ [] ∧ s.all Char.isDigit ∧ digitsVal s < 2 ^ 64 then some (digitsVal s) else none

/-- `input.find('-')`: index of the first `'-'`, or `none` for
`std::string::npos`. -/
def findDash : List Char → Option Nat
  | [] => none
  | c :: rest => if c = '-' then some 0 else (findDash rest).map (· + 1)

/-- `ParseStreamEntryID` from `redis_stream_base.cc` (the exact-id parser).
`input.substr(0, pos)` is `input.take pos` and `input.substr(pos + 1)` is
`input.drop (pos + 1)`.  The source checks both `ParseInt` results before
writing either field of `*id`, so on failure the prior `id` is returned
unchanged. -/
def ParseStreamEntryID (input : List Char) (id : StreamEntryID) : StreamEntryID × RStatus :=
  match findDash input with
  | some pos =>
    match parseUInt64 (input.take pos), parseUInt64 (input.drop (pos + 1)) with
    | some ms, some seq => (⟨ms, seq⟩, .ok)
    | _, _ => (id, .redisParseErr kErrInvalidEntryIdSpecified)
  | none =>
    match parseUInt64 input with
    | some v => (⟨v, 0⟩, .ok)
    | none => (id, .redisParseErr kErrInvalidEntryIdSpecified)

/-- `ParseNewStreamEntryID` from `redis_stream_base.cc`.  Field writes follow
the source's order: in the separator branch `id->ms` is assigned as soon as
the ms part parses, before the seq part is examined; the `"*"` branch sets
`any_seq_number` and leaves `seq` untouched; the no-separator branch leaves
`any_seq_number` untouched. -/
def ParseNewStreamEntryID (input : List Char) (id : NewStreamEntryID) :
    NewStreamEntryID × RStatus :=
  match findDash input with
  | some pos =>
    match parseUInt64 (input.take pos) with
    | none => (id, .redisParseErr kErrInvalidEntryIdSpecified)
    | some ms =>
      if input.drop (pos + 1) = ['*'] then
        (⟨ms, id.seq, true⟩, .ok)
      else
        match parseUInt64 (input.drop (pos + 1)) with
        | none => (⟨ms, id.seq, id.any_seq_number⟩, .redisParseErr kErrInvalidEntryIdSpecified)
        | some seq => (⟨ms, seq, id.any_seq_number⟩, .ok)
  | none =>
    match parseUInt64 input with
    | some v => (⟨v, 0, id.any_seq_number⟩, .ok)
    | none => (id, .redisParseErr kErrInvalidEntryIdSpecified)

/-- `ParseRangeStart` from `redis_stream_base.cc`: delegates to
`ParseStreamEntryID`. -/
def ParseRangeStart (input : List Char) (id : StreamEntryID) : StreamEntryID × RStatus :=
  ParseStreamEntryID input id

/-- `ParseRangeEnd` from `redis_stream_base.cc`: same as the exact-id parser
except that the no-separator branch defaults `seq` to `UINT64_MAX`. -/
def ParseRangeEnd (input : List Char) (id : StreamEntryID) : StreamEntryID × RStatus :=
  match findDash input with
  | some pos =>
    match parseUInt64 (input.take pos), parseUInt64 (input.drop (pos + 1)) with
    | some ms, some seq => (⟨ms, seq⟩, .ok)
    | _, _ => (id, .redisParseErr kErrInvalidEntryIdSpecified)
  | none =>
    match parseUInt64 input with
    | some v => (⟨v, UINT64MAX⟩, .ok)
    | none => (id, .redisParseErr kErrInvalidEntryIdSpecified)

/-- Modelled from the spec: `PutVarint32` (the varint helper behind
`encoding.h`, not under `src/`).  Per §4.4 and the glossary it is the
standard variable-length encoding of an unsigned 32-bit integer: 7 value
bits per byte, least significant group first, high bit set on every byte
but the last. -/
def putVarint32 (v : Nat) : List Nat :=
  if h : v < 128 then [v]
  else (v % 128 + 128) :: putVarint32 (v / 128)
termination_by v
decreasing_by exact Nat.div_lt_self (by omega) (by omega)

/-- Modelled from the spec: the reading loop of `GetVarint32` (not under
`src/`).  Reads base-128 groups at bit offsets `0, 7, 14, 21, 28`
(`shift ≤ 28`, i.e. at most five bytes), accumulating into a 32-bit value
(`% 2 ^ 32`); fails when the bytes run out or the fifth byte still has its
continuation bit set.  On success it returns the decoded value together
with the remaining suffix, which the bundled proof records as strictly
shorter than the input (a varint occupies at least one byte). -/
def getVarint32Core (shift acc : Nat) :
    (s : List Nat) → Option (Nat × { t : List Nat // t.length < s.length })
  | [] => none
  | b :: rest =>
    if 28 < shift then none
    else if b < 128 then
      some ((acc + b * 2 ^ shift) % 2 ^ 32, ⟨rest, by simp⟩)
    else
      match getVarint32Core (shift + 7) (acc + (b - 128) * 2 ^ shift) rest with
      | none => none
      | some (v, ⟨t, ht⟩) => some (v, ⟨t, by simp; omega⟩)

/-- `GetVarint32` as used by the decode loop: the decoded value and the
remaining input. -/
def GetVarint32 (s : List Nat) : Option (Nat × List Nat) :=
  match getVarint32Core 0 0 s with
  | none => none
  | some (v, t) => some (v, t.1)

/-- `EncodeStreamEntryValue` from `redis_stream_base.cc`: for each element,
its length as a varint32 followed by its raw bytes.  `PutVarint32` takes a
`uint32_t`, so the `size_t` length `v.size()` is truncated `% 2 ^ 32` at the
call. -/
def EncodeStreamEntryValue : List (List Nat) → List Nat
  | [] => []
  | v :: rest => putVarint32 (v.length % 2 ^ 32) ++ v ++ EncodeStreamEntryValue rest

/-- Outcome of `DecodeRawStreamEntryValue`.  `corrupted` is the
`Status(RedisParseErr, kErrDecodingStreamEntryValueFailure)` return.  `oob`
marks the behaviour the source exhibits when a decoded length exceeds the
bytes remaining: `result->emplace_back(s.data(), len)` and
`s.remove_prefix(len)` then read and advance past the end of the slice,
which is undefined behaviour in the C++ (and violates
`rocksdb::Slice::remove_prefix`'s own `assert(n <= size())`); the model
surfaces that execution path explicitly instead of inventing a value for
it. -/
inductive DecodeResult where
  | ok (fields : List (List Nat))
  | corrupted
  | oob
deriving DecidableEq

/-- `DecodeRawStreamEntryValue` from `redis_stream_base.cc`: while the slice
is non-empty, read a varint32 length (failing with the decode error if the
varint itself is malformed), then take that many bytes as the next element
and drop them.  The source performs no check that `len` bytes remain; when
they do not, execution reaches the out-of-bounds read modelled by
`DecodeResult.oob`. -/
def DecodeRawStreamEntryValue (s : List Nat) : DecodeResult :=
  if s = [] then .ok []
  else
    match getVarint32Core 0 0 s with
    | none => .corrupted
    | some (len, ⟨rest, _hrest⟩) =>
      if rest.length < len then .oob
      else
        match DecodeRawStreamEntryValue (rest.drop len) with
        | .ok l => .ok (rest.take len :: l)
        | .corrupted => .corrupted
        | .oob => .oob
termination_by s.length
decreasing_by simp [List.length_drop]; omega

/-- The sequence of ids issued by repeated `GetNextStreamEntryID` calls where
each call's `last` is the previous call's result, for a given list of clock
readings. -/
def issueChain (id0 : StreamEntryID) : List Nat → List StreamEntryID
  | [] => []
  | now :: rest =>
      (GetNextStreamEntryID id0 now).1 :: issueChain (GetNextStreamEntryID id0 now).1 rest

end Redis

namespace Util

/-- The `errno` value for an interrupted call. -/
def EINTR : Nat := 4

/-- One underlying syscall outcome, supplied as an input to the loop models:
either a non-negative byte count, or `-1` with the given `errno`. -/
inductive SyscallRes where
  | ok (n : Nat)
  | err (e : Nat)
deriving DecidableEq

/-- Outcome of a modelled I/O loop.  `blocked` is a model artifact meaning
the supplied outcome trace ran out while the loop had not finished (the real
loop would issue another syscall). -/
inductive IOOutcome where
  | success
  | error (e : Nat)
  | blocked
deriving DecidableEq

/-- The loop of `WriteImpl` from `io_util.cc`, modelled over a trace of
syscall outcomes: while `n < data.size()`, issue one `write`/`pwrite`; on
`-1` return `Status::FromErrno()` immediately — the source inspects `errno`
for no value, interrupted calls included — otherwise add `nwritten` to `n`. -/
def WriteImpl (size : Nat) : Nat → List SyscallRes → IOOutcome
  | n, [] => if n < size then .blocked else .success
  | n, r :: rest =>
    if n < size then
      match r with
      | .ok k => WriteImpl size (n + k) rest
      | .err e => .error e
    else .success

/-- `Util::Write` from `io_util.cc`: `WriteImpl<write>(fd, data)` starting at
`n = 0`; only `data.size()` and the syscall outcomes are semantically
relevant. -/
def Write (size : Nat) (trace : List SyscallRes) : IOOutcome :=
  WriteImpl size 0 trace

/-- `Util::SockSend` from `io_util.cc`: `Write(fd, data)`. -/
def SockSend (size : Nat) (trace : List SyscallRes) : IOOutcome :=
  Write size trace

/-- The loop of `Util::SockSendFile` from `io_util.cc`, modelled over a trace
of `SockSendFileCore` outcomes: while `size != 0`, request
`n = min(size, 16 * 1024)` bytes; on `-1` with `errno == EINTR` retry
(`continue`), on `-1` with any other `errno` return the error, otherwise
subtract `nwritten` from `size` and advance `offset`.  Alongside the
outcome it returns the list of per-call requested chunk sizes `n`. -/
def SockSendFile (size offset : Nat) : List SyscallRes → IOOutcome × List Nat
  | [] => if size = 0 then (.success, []) else (.blocked, [])
  | r :: rest =>
    if size = 0 then (.success, [])
    else
      let n := if size ≤ 16 * 1024 then size else 16 * 1024
      match r with
      | .err e =>
        if e = EINTR then
          let p := SockSendFile size offset rest
          (p.1, n :: p.2)
        else (.error e, [n])
      | .ok k =>
        let p := SockSendFile (size - k) (offset + k) rest
        (p.1, n :: p.2)

end Util

namespace Redis

/-- C3: `Increment` is the immediate-successor function on EntryIDs: for
`seq < UINT64_MAX` it succeeds with `(ms, seq + 1)`; for `seq = UINT64_MAX`
and `ms < UINT64_MAX` it succeeds with `(ms + 1, 0)`; and on
`(UINT64_MAX, UINT64_MAX)` it fails with the exhausted-id-space error,
resetting the identifier to `(0, 0)` before returning it. -/
theorem c3_increment_successor (id : StreamEntryID) :
    (id.seq < UINT64MAX → IncrementStreamEntryID id = (⟨id.ms, id.seq + 1⟩, .ok)) ∧
    (id.seq = UINT64MAX → id.ms < UINT64MAX →
      IncrementStreamEntryID id = (⟨id.ms + 1, 0⟩, .ok)) ∧
    (id.ms = UINT64MAX → id.seq = UINT64MAX →
      IncrementStreamEntryID id = (⟨0, 0⟩, .invalidArgument kErrLastEntryIdReached)) := by
  unfold IncrementStreamEntryID
  refine ⟨fun h => ?_, fun h hm => ?_, fun hm h => ?_⟩
  · rw [if_neg (by omega)]
  · rw [if_pos h, if_neg (by omega)]
  · rw [if_pos h, if_pos hm]

/-- Witness for C3 at the spec's concrete scenarios 1–3. -/
theorem c3_increment_successor_witness :
    IncrementStreamEntryID ⟨10, 5⟩ = (⟨10, 6⟩, .ok) ∧
    IncrementStreamEntryID ⟨10, UINT64MAX⟩ = (⟨11, 0⟩, .ok) ∧
    IncrementStreamEntryID ⟨UINT64MAX, UINT64MAX⟩ =
      (⟨0, 0⟩, .invalidArgument kErrLastEntryIdReached) :=
  ⟨(c3_increment_successor ⟨10, 5⟩).1 (by decide),
   (c3_increment_successor ⟨10, UINT64MAX⟩).2.1 rfl (by decide),
   (c3_increment_successor ⟨UINT64MAX, UINT64MAX⟩).2.2 rfl rfl⟩

/-- C4: for every `last` and current time `now`, if `now > last.ms` then
`NextID` succeeds with `(now, 0)`; otherwise it returns exactly the result
of `Increment(last)`, in particular propagating the exhausted-id-space
error when `last` is `(UINT64_MAX, UINT64_MAX)`. -/
theorem c4_next_id (last : StreamEntryID) (now : Nat) :
    (now > last.ms → GetNextStreamEntryID last now = (⟨now, 0⟩, .ok)) ∧
    (¬now > last.ms → GetNextStreamEntryID last now = IncrementStreamEntryID last) ∧
    (¬now > last.ms → last = maxEntryID →
      (GetNextStreamEntryID last now).2 = .invalidArgument kErrLastEntryIdReached) := by
  unfold GetNextStreamEntryID
  refine ⟨fun h => if_pos h, fun h => if_neg h, fun h hl => ?_⟩
  rw [if_neg h, hl]
  rfl

/-- Witness for C4 at the spec's concrete scenarios 5–6 and at the maximum
id with a stalled clock. -/
theorem c4_next_id_witness :
    GetNextStreamEntryID ⟨1000, 3⟩ 1005 = (⟨1005, 0⟩, .ok) ∧
    GetNextStreamEntryID ⟨1000, 3⟩ 999 = IncrementStreamEntryID ⟨1000, 3⟩ ∧
    (GetNextStreamEntryID maxEntryID 0).2 = .invalidArgument kErrLastEntryIdReached :=
  ⟨(c4_next_id ⟨1000, 3⟩ 1005).1 (by decide),
   (c4_next_id ⟨1000, 3⟩ 999).2.1 (by decide),
   (c4_next_id maxEntryID 0).2.2 (by decide) rfl⟩

/-- C5: for every `last` other than `(UINT64_MAX, UINT64_MAX)` and every
current time value (clock regression included), `NextID` succeeds and its
result is strictly greater than `last` in the `(ms, seq)` lexicographic
order; consequently a chain of calls, each feeding the previous result back
as `last`, produces a strictly increasing sequence of identifiers as long
as no issued id is the maximum (the id space is not exhausted). -/
theorem c5_next_id_strictly_increasing :
    (∀ (last : StreamEntryID) (now : Nat),
      ¬(last.ms = UINT64MAX ∧ last.seq = UINT64MAX) →
      (GetNextStreamEntryID last now).2 = .ok ∧
        entryIDLt last (GetNextStreamEntryID last now).1) ∧
    (∀ (id0 : StreamEntryID) (nows : List Nat),
      (∀ id ∈ id0 :: issueChain id0 nows, ¬(id.ms = UINT64MAX ∧ id.seq = UINT64MAX)) →
      List.Chain' entryIDLt (id0 :: issueChain id0 nows)) := by
  have step : ∀ (last : StreamEntryID) (now : Nat),
      ¬(last.ms = UINT64MAX ∧ last.seq = UINT64MAX) →
      (GetNextStreamEntryID last now).2 = .ok ∧
        entryIDLt last (GetNextStreamEntryID last now).1 := by
    intro last now h
    unfold GetNextStreamEntryID IncrementStreamEntryID entryIDLt
    by_cases hn : now > last.ms
    · rw [if_pos hn]
      exact ⟨rfl, Or.inl hn⟩
    · rw [if_neg hn]
      by_cases hs : last.seq = UINT64MAX
      · have hm : ¬last.ms = UINT64MAX := fun hm => h ⟨hm, hs⟩
        rw [if_pos hs, if_neg hm]
        exact ⟨rfl, Or.inl (Nat.lt_succ_self _)⟩
      · rw [if_neg hs]
        exact ⟨rfl, Or.inr ⟨rfl, Nat.lt_succ_self _⟩⟩
  refine ⟨step, ?_⟩
  intro id0 nows
  induction nows generalizing id0 with
  | nil => intro _; simp [issueChain]
  | cons now rest ih =>
    intro hmem
    simp only [issueChain]
    rw [List.chain'_cons]
    constructor
    · exact (step id0 now (hmem id0 (List.mem_cons_self _ _))).2
    · exact ih (GetNextStreamEntryID id0 now).1 fun id hid =>
        hmem id (by simp only [issueChain]; exact List.mem_cons_of_mem _ hid)

/-- Witness for C5: a concrete step with a regressed clock, and a concrete
two-element chain. -/
theorem c5_next_id_strictly_increasing_witness :
    ((GetNextStreamEntryID ⟨1000, 3⟩ 999).2 = .ok ∧
      entryIDLt ⟨1000, 3⟩ (GetNextStreamEntryID ⟨1000, 3⟩ 999).1) ∧
    List.Chain' entryIDLt (⟨1000, 3⟩ :: issueChain ⟨1000, 3⟩ [999, 1005]) :=
  ⟨c5_next_id_strictly_increasing.1 ⟨1000, 3⟩ 999 (by decide),
   c5_next_id_strictly_increasing.2 ⟨1000, 3⟩ [999, 1005] (by decide)⟩

/-- A string accepted by `parseUInt64` consists of decimal digits only. -/
theorem parseUInt64_isDigit {s : List Char} {v : Nat} (h : parseUInt64 s = some v) :
    ∀ c ∈ s, c.isDigit = true := by
  unfold parseUInt64 at h
  split at h
  · rename_i hc
    exact fun c hcs => List.all_eq_true.mp hc.2.1 c hcs
  · exact absurd h (by simp)

/-- A string accepted by `parseUInt64` contains no `'-'`. -/
theorem parseUInt64_no_dash {s : List Char} {v : Nat} (h : parseUInt64 s = some v) :
    ∀ c ∈ s, ¬c = '-' := by
  intro c hc he
  have hd := parseUInt64_isDigit h c hc
  rw [he] at hd
  exact absurd hd (by decide)

/-- `find('-')` misses on a dash-free string. -/
theorem findDash_eq_none {s : List Char} (h : ∀ c ∈ s, ¬c = '-') : findDash s = none := by
  induction s with
  | nil => rfl
  | cons c rest ih =>
    unfold findDash
    rw [if_neg (h c (List.mem_cons_self _ _)), ih fun x hx => h x (List.mem_cons_of_mem _ hx)]
    rfl

/-- `find('-')` on `l₁ ++ "-" ++ l₂` with `l₁` dash-free hits at `l₁.length`. -/
theorem findDash_append {l₁ l₂ : List Char} (h : ∀ c ∈ l₁, ¬c = '-') :
    findDash (l₁ ++ '-' :: l₂) = some l₁.length := by
  induction l₁ with
  | nil => simp [findDash]
  | cons c rest ih =>
    simp only [List.cons_append]
    unfold findDash
    rw [if_neg (h c (List.mem_cons_self _ _)), ih fun x hx => h x (List.mem_cons_of_mem _ hx)]
    rfl

/-- `substr(0, pos)` of a split input recovers the ms part. -/
theorem split_take (l₁ l₂ : List Char) : (l₁ ++ '-' :: l₂).take l₁.length = l₁ :=
  List.take_left l₁ _

/-- `substr(pos + 1)` of a split input recovers the seq part. -/
theorem split_drop (l₁ l₂ : List Char) : (l₁ ++ '-' :: l₂).drop (l₁.length + 1) = l₂ := by
  have h1 : l₁ ++ '-' :: l₂ = (l₁ ++ ['-']) ++ l₂ := by simp
  have h2 : l₁.length + 1 = (l₁ ++ ['-']).length := by simp
  rw [h1, h2, List.drop_left]

/-- `ParseStreamEntryID` on a split input `ms-seq`. -/
theorem ParseStreamEntryID_split (l₁ l₂ : List Char) (id : StreamEntryID)
    (h : ∀ c ∈ l₁, ¬c = '-') :
    ParseStreamEntryID (l₁ ++ '-' :: l₂) id =
      match parseUInt64 l₁, parseUInt64 l₂ with
      | some ms, some sq => (⟨ms, sq⟩, .ok)
      | _, _ => (id, .redisParseErr kErrInvalidEntryIdSpecified) := by
  unfold ParseStreamEntryID
  rw [findDash_append h]
  simp only [split_take, split_drop]

/-- `ParseRangeEnd` on a split input `ms-seq`. -/
theorem ParseRangeEnd_split (l₁ l₂ : List Char) (id : StreamEntryID)
    (h : ∀ c ∈ l₁, ¬c = '-') :
    ParseRangeEnd (l₁ ++ '-' :: l₂) id =
      match parseUInt64 l₁, parseUInt64 l₂ with
      | some ms, some sq => (⟨ms, sq⟩, .ok)
      | _, _ => (id, .redisParseErr kErrInvalidEntryIdSpecified) := by
  unfold ParseRangeEnd
  rw [findDash_append h]
  simp only [split_take, split_drop]

/-- `ParseNewStreamEntryID` on a split input `ms-seq` or `ms-*`. -/
theorem ParseNewStreamEntryID_split (l₁ l₂ : List Char) (id : NewStreamEntryID)
    (h : ∀ c ∈ l₁, ¬c = '-') :
    ParseNewStreamEntryID (l₁ ++ '-' :: l₂) id =
      match parseUInt64 l₁ with
      | none => (id, .redisParseErr kErrInvalidEntryIdSpecified)
      | some ms =>
        if l₂ = ['*'] then (⟨ms, id.seq, true⟩, .ok)
        else
          match parseUInt64 l₂ with
          | none => (⟨ms, id.seq, id.any_seq_number⟩,
              .redisParseErr kErrInvalidEntryIdSpecified)
          | some sq => (⟨ms, sq, id.any_seq_number⟩, .ok) := by
  unfold ParseNewStreamEntryID
  rw [findDash_append h]
  simp only [split_take, split_drop]

/-- C6 counterexample: parsing the malformed new-entry id `"1-x"` into a
fresh object fails, yet the object is not left unchanged — the source has
already written `ms = 1` before the seq component is found malformed. -/
theorem c6_counterexample_partial_write :
    (ParseNewStreamEntryID ['1', '-', 'x'] ⟨0, 0, false⟩).2 ≠ .ok ∧
    (ParseNewStreamEntryID ['1', '-', 'x'] ⟨0, 0, false⟩).1 ≠ (⟨0, 0, false⟩ : NewStreamEntryID) := by
  decide

/-- C6 amended: on a `MalformedInput` failure, `ExactID`, `RangeStart` and
`RangeEnd` leave the output identifier entirely unchanged; `NewEntryID`
leaves `seq` and `any_seq_number` unchanged, but may have overwritten `ms`
(it writes `ms` as soon as that component parses, before examining the seq
component). -/
theorem c6_no_partial_write_amended :
    (∀ (input : List Char) (id : StreamEntryID),
      (ParseStreamEntryID input id).2 ≠ .ok → (ParseStreamEntryID input id).1 = id) ∧
    (∀ (input : List Char) (id : StreamEntryID),
      (ParseRangeStart input id).2 ≠ .ok → (ParseRangeStart input id).1 = id) ∧
    (∀ (input : List Char) (id : StreamEntryID),
      (ParseRangeEnd input id).2 ≠ .ok → (ParseRangeEnd input id).1 = id) ∧
    (∀ (input : List Char) (id : NewStreamEntryID),
      (ParseNewStreamEntryID input id).2 ≠ .ok →
        (ParseNewStreamEntryID input id).1.seq = id.seq ∧
        (ParseNewStreamEntryID input id).1.any_seq_number = id.any_seq_number) := by
  refine ⟨fun input id => ?_, fun input id => ?_, fun input id => ?_, fun input id => ?_⟩
  · unfold ParseStreamEntryID
    split
    · split <;> simp
    · split <;> simp
  · unfold ParseRangeStart ParseStreamEntryID
    split
    · split <;> simp
    · split <;> simp
  · unfold ParseRangeEnd
    split
    · split <;> simp
    · split <;> simp
  · unfold ParseNewStreamEntryID
    split
    · split
      · simp
      · split
        · simp
        · split <;> simp
    · split <;> simp

/-- Witness for C6 amended: the exact-id parser fails on `"abc"` leaving a
concrete prior id unchanged, and the new-entry parser's failure on `"1-x"`
leaves `seq` and `any_seq_number` of a concrete prior object unchanged. -/
theorem c6_no_partial_write_amended_witness :
    (ParseStreamEntryID ['a', 'b', 'c'] ⟨7, 8⟩).1 = (⟨7, 8⟩ : StreamEntryID) ∧
    (ParseNewStreamEntryID ['1', '-', 'x'] ⟨7, 8, true⟩).1.seq = 8 ∧
    (ParseNewStreamEntryID ['1', '-', 'x'] ⟨7, 8, true⟩).1.any_seq_number = true :=
  ⟨c6_no_partial_write_amended.1 ['a', 'b', 'c'] ⟨7, 8⟩ (by decide),
   (c6_no_partial_write_amended.2.2.2 ['1', '-', 'x'] ⟨7, 8, true⟩ (by decide)).1,
   (c6_no_partial_write_amended.2.2.2 ['1', '-', 'x'] ⟨7, 8, true⟩ (by decide)).2⟩

/-- C7: new-entry-id parsing from a fresh request object — `"<ms>-*"` with a
valid ms succeeds with that ms and `any_seq_number = true`; a valid bare
`"<ms>"` succeeds with `seq = 0` and `any_seq_number = false`; `"<ms>-<seq>"`
with both components valid succeeds with the literal seq and
`any_seq_number = false`. -/
theorem c7_new_entry_id_parsing :
    (∀ (msStr : List Char) (ms : Nat), parseUInt64 msStr = some ms →
      ParseNewStreamEntryID (msStr ++ '-' :: ['*']) .fresh = (⟨ms, 0, true⟩, .ok)) ∧
    (∀ (input : List Char) (ms : Nat), parseUInt64 input = some ms →
      ParseNewStreamEntryID input .fresh = (⟨ms, 0, false⟩, .ok)) ∧
    (∀ (msStr seqStr : List Char) (ms sq : Nat),
      parseUInt64 msStr = some ms → parseUInt64 seqStr = some sq →
      ParseNewStreamEntryID (msStr ++ '-' :: seqStr) .fresh = (⟨ms, sq, false⟩, .ok)) := by
  refine ⟨fun msStr ms hms => ?_, fun input ms hms => ?_, fun msStr seqStr ms sq hms hsq => ?_⟩
  · rw [ParseNewStreamEntryID_split _ _ _ (parseUInt64_no_dash hms)]
    simp [hms, NewStreamEntryID.fresh]
  · unfold ParseNewStreamEntryID
    rw [findDash_eq_none (parseUInt64_no_dash hms)]
    simp [hms, NewStreamEntryID.fresh]
  · rw [ParseNewStreamEntryID_split _ _ _ (parseUInt64_no_dash hms)]
    have hstar : seqStr ≠ ['*'] := by
      intro he
      have hnone : parseUInt64 ['*'] = none := by decide
      rw [he, hnone] at hsq
      exact absurd hsq (by simp)
    simp [hms, hsq, hstar, NewStreamEntryID.fresh]

/-- Witness for C7 at the spec's concrete parsing scenarios. -/
theorem c7_new_entry_id_parsing_witness :
    ParseNewStreamEntryID (['1', '2', '3'] ++ '-' :: ['*']) .fresh = (⟨123, 0, true⟩, .ok) ∧
    ParseNewStreamEntryID ['1', '2', '3'] .fresh = (⟨123, 0, false⟩, .ok) ∧
    ParseNewStreamEntryID (['1', '2', '3'] ++ '-' :: ['4', '5']) .fresh =
      (⟨123, 45, false⟩, .ok) :=
  ⟨c7_new_entry_id_parsing.1 ['1', '2', '3'] 123 (by decide),
   c7_new_entry_id_parsing.2.1 ['1', '2', '3'] 123 (by decide),
   c7_new_entry_id_parsing.2.2 ['1', '2', '3'] ['4', '5'] 123 45 (by decide) (by decide)⟩

/-- C8: range-boundary defaulting — a valid bare `"<ms>"` parses as
`(ms, 0)` through `RangeStart` and as `(ms, UINT64_MAX)` through
`RangeEnd`; `"<ms>-<seq>"` with both components valid parses as the exact
`(ms, seq)` pair through both. -/
theorem c8_range_boundary_defaults :
    (∀ (input : List Char) (ms : Nat) (id : StreamEntryID), parseUInt64 input = some ms →
      ParseRangeStart input id = (⟨ms, 0⟩, .ok)) ∧
    (∀ (input : List Char) (ms : Nat) (id : StreamEntryID), parseUInt64 input = some ms →
      ParseRangeEnd input id = (⟨ms, UINT64MAX⟩, .ok)) ∧
    (∀ (msStr seqStr : List Char) (ms sq : Nat) (id : StreamEntryID),
      parseUInt64 msStr = some ms → parseUInt64 seqStr = some sq →
      ParseRangeStart (msStr ++ '-' :: seqStr) id = (⟨ms, sq⟩, .ok)) ∧
    (∀ (msStr seqStr : List Char) (ms sq : Nat) (id : StreamEntryID),
      parseUInt64 msStr = some ms → parseUInt64 seqStr = some sq →
      ParseRangeEnd (msStr ++ '-' :: seqStr) id = (⟨ms, sq⟩, .ok)) := by
  refine ⟨fun input ms id hms => ?_, fun input ms id hms => ?_,
    fun msStr seqStr ms sq id hms hsq => ?_, fun msStr seqStr ms sq id hms hsq => ?_⟩
  · unfold ParseRangeStart ParseStreamEntryID
    rw [findDash_eq_none (parseUInt64_no_dash hms)]
    simp [hms]
  · unfold ParseRangeEnd
    rw [findDash_eq_none (parseUInt64_no_dash hms)]
    simp [hms]
  · unfold ParseRangeStart
    rw [ParseStreamEntryID_split _ _ _ (parseUInt64_no_dash hms)]
    simp [hms, hsq]
  · rw [ParseRangeEnd_split _ _ _ (parseUInt64_no_dash hms)]
    simp [hms, hsq]

/-- Witness for C8 at the spec's concrete scenarios
(`RangeStart("5") = (5, 0)`, `RangeEnd("5") = (5, MAX)`, and the exact form
on `"5-3"`). -/
theorem c8_range_boundary_defaults_witness :
    ParseRangeStart ['5'] ⟨9, 9⟩ = (⟨5, 0⟩, .ok) ∧
    ParseRangeEnd ['5'] ⟨9, 9⟩ = (⟨5, UINT64MAX⟩, .ok) ∧
    ParseRangeStart (['5'] ++ '-' :: ['3']) ⟨9, 9⟩ = (⟨5, 3⟩, .ok) ∧
    ParseRangeEnd (['5'] ++ '-' :: ['3']) ⟨9, 9⟩ = (⟨5, 3⟩, .ok) :=
  ⟨c8_range_boundary_defaults.1 ['5'] 5 ⟨9, 9⟩ (by decide),
   c8_range_boundary_defaults.2.1 ['5'] 5 ⟨9, 9⟩ (by decide),
   c8_range_boundary_defaults.2.2.1 ['5'] ['3'] 5 3 ⟨9, 9⟩ (by decide) (by decide),
   c8_range_boundary_defaults.2.2.2 ['5'] ['3'] 5 3 ⟨9, 9⟩ (by decide) (by decide)⟩

/-- C10: `ParseRangeStart` is extensionally equal to the exact-id parser
`ParseStreamEntryID` — in the source it is a one-line delegation. -/
theorem c10_range_start_eq_exact_id (input : List Char) (id : StreamEntryID) :
    ParseRangeStart input id = ParseStreamEntryID input id := rfl

/-- A varint occupies at least one byte. -/
theorem putVarint32_ne_nil (v : Nat) : putVarint32 v ≠ [] := by
  rw [putVarint32]
  split <;> simp

/-- `GetVarint32` is the data projection of `getVarint32Core`. -/
theorem GetVarint32_eq_map (s : List Nat) :
    GetVarint32 s = (getVarint32Core 0 0 s).map (fun p => (p.1, p.2.1)) := by
  unfold GetVarint32
  cases hc : getVarint32Core 0 0 s with
  | none => rfl
  | some p => obtain ⟨v, t⟩ := p; rfl

/-- Reading a varint written by `putVarint32` from any group offset
`shift ∈ {0, 7, 14, 21, 28}` recovers the accumulated value and leaves
exactly the appended suffix, provided the value being assembled fits in 32
bits. -/
theorem getVarint32Core_put : ∀ (v shift acc : Nat) (rest : List Nat),
    shift % 7 = 0 → shift ≤ 28 → acc + v * 2 ^ shift < 2 ^ 32 →
    (getVarint32Core shift acc (putVarint32 v ++ rest)).map (fun p => (p.1, p.2.1)) =
      some (acc + v * 2 ^ shift, rest) := by
  intro v
  induction v using Nat.strong_induction_on with
  | _ v ih =>
    intro shift acc rest h7 h28 hlt
    by_cases hv : v < 128
    · rw [putVarint32, dif_pos hv, List.cons_append, List.nil_append]
      unfold getVarint32Core
      rw [if_neg (by omega), if_pos hv, Nat.mod_eq_of_lt hlt]
      rfl
    · rw [putVarint32, dif_neg hv, List.cons_append]
      have hshift : shift + 7 ≤ 28 := by
        by_contra hc
        have h28' : shift = 28 := by omega
        subst h28'
        have hge : 128 * 2 ^ 28 ≤ v * 2 ^ 28 := Nat.mul_le_mul_right _ (by omega)
        have : v * 2 ^ 28 ≤ acc + v * 2 ^ 28 := Nat.le_add_left _ _
        norm_num at hge hlt
        omega
      have hval : acc + v % 128 * 2 ^ shift + v / 128 * 2 ^ (shift + 7)
          = acc + v * 2 ^ shift := by
        have hm : v % 128 + 128 * (v / 128) = v := Nat.mod_add_div v 128
        have hp : (2 : Nat) ^ (shift + 7) = 2 ^ shift * 128 := by rw [pow_add]; norm_num
        rw [hp]
        nlinarith [hm]
      have hih := ih (v / 128) (Nat.div_lt_self (by omega) (by omega)) (shift + 7)
        (acc + v % 128 * 2 ^ shift) rest (by omega) hshift (by rw [hval]; exact hlt)
      unfold getVarint32Core
      rw [if_neg (by omega), if_neg (by omega)]
      rw [show v % 128 + 128 - 128 = v % 128 by omega]
      cases hc : getVarint32Core (shift + 7) (acc + v % 128 * 2 ^ shift)
          (putVarint32 (v / 128) ++ rest) with
      | none => rw [hc] at hih; exact absurd hih (by simp)
      | some p =>
        obtain ⟨v', t, ht⟩ := p
        rw [hc] at hih
        simp only [Option.map_some'] at hih
        obtain ⟨hv', htr⟩ := Prod.mk.injEq .. ▸ (Option.some.injEq .. ▸ hih)
        simp only [Option.map_some']
        rw [hv', htr, hval]

/-- Reading back a varint written for a 32-bit value recovers it and leaves
the suffix. -/
theorem GetVarint32_put {v : Nat} (hv : v < 2 ^ 32) (rest : List Nat) :
    GetVarint32 (putVarint32 v ++ rest) = some (v, rest) := by
  rw [GetVarint32_eq_map]
  have := getVarint32Core_put v 0 0 rest (by omega) (by omega) (by simpa using hv)
  simpa using this

/-- The decode loop on the empty buffer: success with no fields. -/
theorem decode_nil : DecodeRawStreamEntryValue [] = .ok [] := by
  rw [DecodeRawStreamEntryValue]
  rfl

/-- One iteration of the decode loop on a non-empty buffer whose leading
varint parses. -/
theorem decode_step {s : List Nat} {len : Nat} {rest : List Nat}
    (hg : GetVarint32 s = some (len, rest)) (hs : s ≠ []) :
    DecodeRawStreamEntryValue s =
      if rest.length < len then .oob
      else
        match DecodeRawStreamEntryValue (rest.drop len) with
        | .ok l => .ok (rest.take len :: l)
        | .corrupted => .corrupted
        | .oob => .oob := by
  rw [GetVarint32_eq_map] at hg
  rw [DecodeRawStreamEntryValue, if_neg hs]
  split
  · rename_i heq
    rw [heq] at hg
    exact absurd hg (by simp)
  · rename_i len' p heq
    rw [heq] at hg
    simp only [Option.map_some'] at hg
    simp only [Option.some.injEq, Prod.mk.injEq] at hg
    obtain ⟨h1, h2⟩ := hg
    subst h1
    subst h2
    rfl

/-- C2 (amended): the decode of an encode returns exactly the encoded list,
for every finite list of byte strings whose elements are each shorter than
`2 ^ 32` bytes (so that the `uint32_t` length prefix is not truncated),
including the empty list and zero-length elements. -/
theorem c2_decode_encode_roundtrip (args : List (List Nat))
    (h : ∀ v ∈ args, v.length < 2 ^ 32) :
    DecodeRawStreamEntryValue (EncodeStreamEntryValue args) = .ok args := by
  induction args with
  | nil => exact decode_nil
  | cons v rest ih =>
    have hv : v.length < 2 ^ 32 := h v (List.mem_cons_self _ _)
    have henc : EncodeStreamEntryValue (v :: rest) =
        putVarint32 v.length ++ (v ++ EncodeStreamEntryValue rest) := by
      show putVarint32 (v.length % 2 ^ 32) ++ v ++ EncodeStreamEntryValue rest = _
      rw [Nat.mod_eq_of_lt hv, List.append_assoc]
    have hg : GetVarint32 (putVarint32 v.length ++ (v ++ EncodeStreamEntryValue rest)) =
        some (v.length, v ++ EncodeStreamEntryValue rest) := GetVarint32_put hv _
    rw [henc, decode_step hg (by simp [putVarint32_ne_nil])]
    rw [if_neg (by simp)]
    rw [List.take_left, List.drop_left]
    rw [ih fun x hx => h x (List.mem_cons_of_mem _ hx)]

/-- Witness for C2 (amended) at the spec's concrete scenario 4: the
field/value list `["f1", "v1", "f2", "v2"]` as bytes. -/
theorem c2_decode_encode_roundtrip_witness :
    DecodeRawStreamEntryValue
        (EncodeStreamEntryValue [[102, 49], [118, 49], [102, 50], [118, 50]]) =
      .ok [[102, 49], [118, 49], [102, 50], [118, 50]] :=
  c2_decode_encode_roundtrip [[102, 49], [118, 49], [102, 50], [118, 50]] (by decide)

/-- An element of exactly `2 ^ 32` bytes breaks the round trip: its length
prefix is written as `2 ^ 32 % 2 ^ 32 = 0`, so decoding cannot return the
original element first. -/
theorem decode_encode_big {big : List Nat} (hlen : big.length = 2 ^ 32) :
    DecodeRawStreamEntryValue (EncodeStreamEntryValue [big]) ≠ .ok [big] := by
  have h0 : big.length % 2 ^ 32 = 0 := by rw [hlen, Nat.mod_self]
  have hput0 : putVarint32 0 = [0] := by rw [putVarint32]; rfl
  have henc : EncodeStreamEntryValue [big] = 0 :: big := by
    show putVarint32 (big.length % 2 ^ 32) ++ big ++ EncodeStreamEntryValue [] = _
    rw [h0, hput0]
    show [0] ++ big ++ [] = _
    simp
  have hg : GetVarint32 (0 :: big) = some (0, big) := by
    have : (0 : Nat) :: big = putVarint32 0 ++ big := by rw [hput0]; rfl
    rw [this]
    exact GetVarint32_put (by norm_num) big
  rw [henc, decode_step hg (by simp), if_neg (by omega)]
  simp only [List.take_zero, List.drop_zero]
  cases hd : DecodeRawStreamEntryValue big with
  | ok l =>
    intro hcontra
    simp only [DecodeResult.ok.injEq, List.cons.injEq] at hcontra
    have : big.length = 0 := by rw [← hcontra.1]; rfl
    omega
  | corrupted => simp
  | oob => simp

/-- C2 counterexample: for the one-element list whose element is exactly
`2 ^ 32` zero bytes, `Decode(Encode(x))` does not return `x` — the
`size_t → uint32_t` truncation at the `PutVarint32` call writes a zero
length prefix. -/
theorem c2_counterexample_large_element :
    DecodeRawStreamEntryValue (EncodeStreamEntryValue [List.replicate (2 ^ 32) 0]) ≠
      .ok [List.replicate (2 ^ 32) 0] :=
  decode_encode_big (by rw [List.length_replicate])

/-- C1 (code evaluation at the failing input): on the one-byte buffer
`"\x05"` — a complete varint declaring a 5-byte element with no bytes
remaining — the decode loop does not return the codec-corruption error; it
reaches the out-of-bounds read (`emplace_back(s.data(), 5)` and
`remove_prefix(5)` on an empty slice). -/
theorem c1_decode_short_payload_reaches_oob :
    DecodeRawStreamEntryValue [5] = .oob ∧
    DecodeRawStreamEntryValue [5] ≠ .corrupted := by
  have hg : GetVarint32 [5] = some (5, []) := by decide
  rw [decode_step hg (by simp), if_pos (by simp)]
  exact ⟨rfl, by simp⟩

end Redis

namespace Util

/-- C9 counterexample: the full-buffer write loop does not transparently
retry an interrupted call.  With one byte to write and a syscall trace
whose first outcome is `EINTR`, `Write` aborts with that error, while on
the same trace without the interruption it succeeds — so the interruption
is not transparent. -/
theorem c9_counterexample_write_no_eintr_retry :
    Write 1 [.err EINTR, .ok 1] = .error EINTR ∧
    Write 1 [.ok 1] = .success := by
  decide

/-- C9 (amended): `SockSendFile` transparently retries an underlying call
that fails with `EINTR`, aborts with the error on any other syscall
failure, and issues every underlying call for a chunk of at most 16 KiB;
the full-buffer write loop (`Write`/`SockSend` via `WriteImpl`) performs no
retry at all — it aborts with the error on any syscall failure, the
interrupted-call condition included. -/
theorem c9_retry_policy_amended :
    (∀ (size offset : Nat) (rest : List SyscallRes), size ≠ 0 →
      (SockSendFile size offset (.err EINTR :: rest)).1 =
        (SockSendFile size offset rest).1) ∧
    (∀ (size offset e : Nat) (rest : List SyscallRes), size ≠ 0 → e ≠ EINTR →
      (SockSendFile size offset (.err e :: rest)).1 = .error e) ∧
    (∀ (size offset : Nat) (trace : List SyscallRes) (c : Nat),
      c ∈ (SockSendFile size offset trace).2 → c ≤ 16 * 1024) ∧
    (∀ (size n e : Nat) (rest : List SyscallRes), n < size →
      WriteImpl size n (.err e :: rest) = .error e) := by
  refine ⟨fun size offset rest hs => ?_, fun size offset e rest hs he => ?_,
    fun size offset trace => ?_, fun size n e rest h => ?_⟩
  · simp [SockSendFile, hs]
  · simp [SockSendFile, hs, he]
  · induction trace generalizing size offset with
    | nil =>
      intro c hc
      by_cases hs : size = 0 <;> simp [SockSendFile, hs] at hc
    | cons r rest ih =>
      intro c hc
      by_cases hs : size = 0
      · simp [SockSendFile, hs] at hc
      · have hn : (if size ≤ 16 * 1024 then size else 16 * 1024) ≤ 16 * 1024 := by
          split <;> omega
        cases r with
        | err e =>
          by_cases he : e = EINTR
          · subst he
            simp [SockSendFile, hs] at hc
            rcases hc with rfl | hc
            · exact hn
            · exact ih _ _ _ hc
          · simp [SockSendFile, hs, he] at hc
            subst hc
            exact hn
        | ok k =>
          simp [SockSendFile, hs] at hc
          rcases hc with rfl | hc
          · exact hn
          · exact ih _ _ _ hc
  · simp [WriteImpl, h]

/-- Witness for C9 (amended): a concrete interrupted-then-successful bulk
transfer, a concrete hard failure, a concrete chunk bound, and a concrete
aborting write. -/
theorem c9_retry_policy_amended_witness :
    (SockSendFile 10 0 [.err EINTR, .ok 10]).1 = (SockSendFile 10 0 [.ok 10]).1 ∧
    (SockSendFile 10 0 [.err 13, .ok 10]).1 = .error 13 ∧
    (5 : Nat) ≤ 16 * 1024 ∧
    WriteImpl 10 0 [.err EINTR] = .error EINTR :=
  ⟨c9_retry_policy_amended.1 10 0 [.ok 10] (by decide),
   c9_retry_policy_amended.2.1 10 0 13 [.ok 10] (by decide) (by decide),
   c9_retry_policy_amended.2.2.1 5 0 [.ok 5] 5 (by decide),
   c9_retry_policy_amended.2.2.2 10 0 EINTR [] (by decide)⟩

end Util
